import Mathlib

/-!
Verification of the `infercam_onnx` repository against its natural-language
specification.

The development shallowly embeds the claim-relevant parts of the source:

* `infer_server/src/nn.rs` — bounding boxes, `bbox_area`, `iou`,
  `non_maximum_suppression` and `UltrafaceModel::postproc`.  The Rust code
  computes with `f32`; the embedding uses exact rational arithmetic (`ℚ`)
  for the algebraic claims, and a dedicated type `F32` (a rational extended
  with a NaN element) where the presence of NaN is the point of the claim.
* `common/src/protocol.rs` — the `ProtoMsg` bincode wire format
  (4-byte little-endian variant tag, 8-byte little-endian length-prefixed
  byte strings; trailing bytes are permitted, as with `bincode::deserialize`).
* `infer_server/src/router.rs` — the `FrameRouter::run` loop as a state
  transition on broadcast maps, snapshots and the bounded inference queue.
* `infer_server/src/data_socket.rs` — `handle_incoming` as a function from
  the list of received framed payloads to a session outcome.
* `infer_server/src/pubsub.rs` — the `NamedPubSub` mpsc map operations.

Rust strings are modelled as byte lists (`List ℕ`); UTF-8 validity is not
tracked, it plays no role in any claim.
-/

/-! ### Model of `infer_server/src/nn.rs` (rational arithmetic) -/

/-- Bounding box `[x_top_left, y_top_left, x_bottom_right, y_bottom_right]`,
after `pub type Bbox = [f32; 4]` in `nn.rs`.  Coordinates are modelled as
exact rationals. -/
structure Bbox where
  xtl : ℚ
  ytl : ℚ
  xbr : ℚ
  ybr : ℚ
deriving DecidableEq, Repr

/-- The constant `EPS: f32 = 1.0e-7` from `nn.rs`, as the exact rational. -/
def EPS : ℚ := 1 / 10000000

/-- Model of `bbox_area` in `nn.rs`: `width = bbox[3] - bbox[1]`,
`height = bbox[2] - bbox[0]`; if either is negative the area is `0`,
otherwise `width * height`. -/
def bbox_area (bbox : Bbox) : ℚ :=
  let width := bbox.ybr - bbox.ytl
  let height := bbox.xbr - bbox.xtl
  if width < 0 ∨ height < 0 then 0 else width * height

/-- Model of `iou` in `nn.rs`: the overlap box is built from componentwise
`max`/`min` of the two corner points, and the result is
`overlap_area / (area a + area b - overlap_area + EPS)`.

Caveat: the exact-rational arithmetic differs from the source's `f32` where
rounding matters — e.g. for areas `≥ 2`, `f32` evaluates `area + EPS` to
`area` (EPS is below half an ulp there), so the source can return exactly
`1.0` where this model returns `area / (area + EPS) < 1`.  No claim theorem
below asserts anything of that regime: model-only facts such as
`iou a a < 1` are not claimed of the program. -/
def iou (bbox_a bbox_b : Bbox) : ℚ :=
  let overlap_box : Bbox :=
    ⟨max bbox_a.xtl bbox_b.xtl, max bbox_a.ytl bbox_b.ytl,
     min bbox_a.xbr bbox_b.xbr, min bbox_a.ybr bbox_b.ybr⟩
  let overlap_area := bbox_area overlap_box
  overlap_area / (bbox_area bbox_a + bbox_area bbox_b - overlap_area + EPS)

/-- Inner loop of `non_maximum_suppression` in `nn.rs`.  The Rust code pops
candidates from the back of the ascending-sorted vector; here the candidate
list is already reversed, so candidates are consumed front-to-back.  A
candidate is skipped iff some already-selected box has IoU above `max_iou`
with it (the `continue 'candidates` path); otherwise it is pushed onto
`selected`. -/
def nmsLoop (max_iou : ℚ) : List (Bbox × ℚ) → List (Bbox × ℚ) → List (Bbox × ℚ)
  | selected, [] => selected
  | selected, c :: rest =>
    if selected.any (fun s => decide (max_iou < iou c.1 s.1)) then
      nmsLoop max_iou selected rest
    else
      nmsLoop max_iou (selected ++ [c]) rest

/-- Model of `non_maximum_suppression` in `nn.rs`: the input must be sorted by
ascending confidence; popping from the back is modelled by reversing. -/
def non_maximum_suppression (sorted_bboxes_with_confidences : List (Bbox × ℚ))
    (max_iou : ℚ) : List (Bbox × ℚ) :=
  nmsLoop max_iou [] sorted_bboxes_with_confidences.reverse

/-- Model of `UltrafaceModel::postproc` in `nn.rs`.  The confidence tensor
`(1, K, 2)` is modelled as the list of its `K` rows, of which the face column
`[:, :, 1]` is taken; the box tensor `(1, K, 4)` as the list of its `K` boxes.
Pairs are kept when `conf > min_confidence`, sorted by ascending confidence
(`sort_by` with `partial_cmp` on the confidence, a stable merge sort), and
passed to `non_maximum_suppression`. -/
def postproc (min_confidence max_iou : ℚ) (confRows : List (ℚ × ℚ))
    (boxRows : List Bbox) : List (Bbox × ℚ) :=
  let confidences := confRows.map Prod.snd
  let bboxes_with_confidences :=
    (boxRows.zip confidences).filter (fun p => decide (min_confidence < p.2))
  let sorted := bboxes_with_confidences.mergeSort (fun a b => decide (a.2 ≤ b.2))
  non_maximum_suppression sorted max_iou

/-- Default `min_confidence`, `0.5`, from the fixed call
`non_maximum_suppression(sorted_output, 0.5, 0.5)` in `src/nn.rs`
(`postproc_ultraface`). -/
def minConfidenceDefault : ℚ := 1 / 2

/-- Default `max_iou`, `0.5`, from the same call site. -/
def maxIouDefault : ℚ := 1 / 2

/-! Spec-side rendition of the post-processing pipeline (for the refinement
claim C2).  It follows the wording of spec §4.3.1, not the code. -/

/-- Modelled from the spec §4.3.1 step 3: "repeatedly pop the most confident
pair; accept it if its IoU with every already-accepted box is ≤ max_iou;
otherwise skip; return accepted pairs in order of acceptance".  Candidates
arrive most-confident-first (the sorted list is reversed before the loop). -/
def nmsSpecLoop (max_iou : ℚ) : List (Bbox × ℚ) → List (Bbox × ℚ) → List (Bbox × ℚ)
  | accepted, [] => accepted
  | accepted, c :: rest =>
    if accepted.all (fun s => decide (iou c.1 s.1 ≤ max_iou)) then
      nmsSpecLoop max_iou (accepted ++ [c]) rest
    else
      nmsSpecLoop max_iou accepted rest

/-- Modelled from the spec §4.3.1: keep pairs with `conf > min_confidence`,
sort by ascending confidence, run the acceptance loop on the candidates in
descending order of confidence. -/
def postprocSpec (min_confidence max_iou : ℚ) (confRows : List (ℚ × ℚ))
    (boxRows : List Bbox) : List (Bbox × ℚ) :=
  let kept :=
    (boxRows.zip (confRows.map Prod.snd)).filter
      (fun p => decide (min_confidence < p.2))
  let sorted := kept.mergeSort (fun a b => decide (a.2 ≤ b.2))
  nmsSpecLoop max_iou [] sorted.reverse

/-! ### `f32` with NaN, for the sort-totality claim C9

The rounding behaviour of `f32` is irrelevant to C9; what matters is that
NaN exists, that `NaN > x` is false for every `x`, and that `partial_cmp`
returns `None` exactly when one operand is NaN. -/

/-- An `f32` confidence value: either NaN or an (exact) numeric value. -/
inductive F32 where
  | nan : F32
  | val (q : ℚ) : F32
deriving DecidableEq, Repr

/-- Rust `>` on `f32`: every comparison involving NaN is false. -/
def F32.gtF : F32 → F32 → Bool
  | F32.val a, F32.val b => decide (b < a)
  | _, _ => false

/-- Rust `f32::partial_cmp`: `None` iff either operand is NaN. -/
def F32.partialCmp : F32 → F32 → Option Ordering
  | F32.val a, F32.val b =>
    some (if a < b then Ordering.lt else if a = b then Ordering.eq else Ordering.gt)
  | _, _ => none

/-- The confidence filter of `UltrafaceModel::postproc` (`nn.rs` lines
128-134), at `f32` precision: the `filter_map` keeps a pair exactly when
`confidence > min_confidence`. -/
def filterByConf (min_confidence : F32) (pairs : List (Bbox × F32)) :
    List (Bbox × F32) :=
  pairs.filterMap (fun p => if p.2.gtF min_confidence then some p else none)

/-! ### Model of `common/src/protocol.rs` and its bincode encoding

`ProtoMsg` is serialized with `bincode` (legacy config, as used by
`bincode::serialize`/`deserialize`): a `u32` little-endian variant tag, and
each `String` / `Vec<u8>` as a `u64` little-endian byte length followed by
the raw bytes.  `bincode::deserialize` accepts trailing bytes.  Bytes are
modelled as natural numbers (every byte produced by the encoder is < 256);
strings are byte lists, UTF-8 validity is not tracked. -/

/-- A byte string (Rust `String` or `Vec<u8>` contents). -/
abbrev ByteStr := List Nat

/-- `FrameMsg { id: String, data: Vec<u8> }` from `common/src/protocol.rs`. -/
structure FrameMsg where
  id : ByteStr
  data : ByteStr
deriving DecidableEq, Repr

/-- `enum ProtoMsg { ConnectReq(String), FrameMsg(FrameMsg) }` from
`common/src/protocol.rs`. -/
inductive ProtoMsg where
  | connectReq (name : ByteStr) : ProtoMsg
  | frameMsg (msg : FrameMsg) : ProtoMsg
deriving DecidableEq, Repr

/-- Little-endian byte encoding of `n` in exactly `width` bytes
(the bincode fixed-int encoding; values ≥ 256^width wrap). -/
def natToLEBytes : Nat → Nat → List Nat
  | 0, _ => []
  | width + 1, n => (n % 256) :: natToLEBytes width (n / 256)

/-- Value of a little-endian byte list. -/
def leValue : List Nat → Nat
  | [] => 0
  | b :: t => b + 256 * leValue t

/-- Split off the first `k` bytes, failing if fewer are available
(a failed read is a bincode decode error). -/
def readBytes (k : Nat) (bs : List Nat) : Option (List Nat × List Nat) :=
  if k ≤ bs.length then some (bs.take k, bs.drop k) else none

/-- Read one `u64` little-endian length prefix, then that many bytes. -/
def readPrefixed (bs : List Nat) : Option (List Nat × List Nat) :=
  match readBytes 8 bs with
  | none => none
  | some (lenBytes, r1) => readBytes (leValue lenBytes) r1

/-- Model of `ProtoMsg::deserialize` (`bincode::deserialize`): a 4-byte
little-endian `u32` variant tag (`0` = `ConnectReq`, `1` = `FrameMsg`,
anything else is an error), then the variant payload.  Trailing bytes are
ignored, as by the default bincode configuration. -/
def ProtoMsg.deserialize (bytes : List Nat) : Option ProtoMsg :=
  match readBytes 4 bytes with
  | none => none
  | some (tagBytes, r1) =>
    match leValue tagBytes with
    | 0 =>
      match readPrefixed r1 with
      | none => none
      | some (name, _) => some (ProtoMsg.connectReq name)
    | 1 =>
      match readPrefixed r1 with
      | none => none
      | some (id, r2) =>
        match readPrefixed r2 with
        | none => none
        | some (data, _) => some (ProtoMsg.frameMsg ⟨id, data⟩)
    | _ => none

/-- Model of `bincode::serialize` for `ProtoMsg` (the encoding produced by
the publisher side and by the round-trip test in `protocol.rs`). -/
def ProtoMsg.serialize : ProtoMsg → List Nat
  | ProtoMsg.connectReq name =>
    natToLEBytes 4 0 ++ natToLEBytes 8 name.length ++ name
  | ProtoMsg.frameMsg m =>
    natToLEBytes 4 1 ++ natToLEBytes 8 m.id.length ++ m.id
      ++ natToLEBytes 8 m.data.length ++ m.data

/-! ### Model of `infer_server/src/router.rs` (`FrameRouter::run`)

The two broadcast maps (`frames_broadcast_map`, `infered_broadcast_map`)
are association lists from a channel id to the broadcast sender's receiver
count; the local sender maps of `run` are snapshots of them.  The static
inference channel `INFER_IMAGES_CHANNEL` (capacity 10, `lib.rs`) is the
job queue.  The global `METER` of `meter.rs` — the only counters the
program has — is carried along to make counter claims statable;
`FrameRouter::run` never touches it. -/

/-- Stand-in for `hashed` in `infer_server/src/lib.rs` (`DefaultHasher`).
The claims depend only on `hashed` being a deterministic function of the
name, so the SipHash permutation is replaced by a simple injective fold. -/
def hashed (data : ByteStr) : Nat :=
  data.foldl (fun h b => h * 256 + b + 1) 0

/-- Association-list lookup, first match wins (a `HashMap` access). -/
def lookupA {α : Type} : List (Nat × α) → Nat → Option α
  | [], _ => none
  | (k, v) :: t, c => if k = c then some v else lookupA t c

/-- `retain(|_id, sender| sender.receiver_count() > 0)` on a broadcast map. -/
def retainPos (m : List (Nat × Nat)) : List (Nat × Nat) :=
  m.filter (fun e => decide (0 < e.2))

/-- One entry of `INFER_IMAGES_CHANNEL`: `StaticImage =
(u32, u32, Vec<u8>, Option<BroadcastSender>)`; the cloned sender is
identified by its channel id. -/
structure InferJob where
  width : Nat
  height : Nat
  jpeg : ByteStr
  channel : Nat
deriving DecidableEq, Repr

/-- `INFER_IMAGES_CHANNEL` capacity: `StaticChannel<StaticImage, 10>` in
`infer_server/src/lib.rs`. -/
def inferQueueCapacity : Nat := 10

/-- State of `FrameRouter::run`: the shared broadcast maps, the local
snapshot maps, the inference queue contents, and the two `METER` counters. -/
structure RouterState where
  sharedFrames : List (Nat × Nat)
  sharedInfered : List (Nat × Nat)
  framesSnap : List (Nat × Nat)
  inferedSnap : List (Nat × Nat)
  inferQueue : List InferJob
  meterRaw : Nat
  meterInfered : Nat
deriving DecidableEq, Repr

/-- The snapshot refresh at the top of the `FrameRouter::run` loop
(`router.rs` lines 33-50): both shared maps drop senders without receivers,
and the local sender maps become exact copies of the retained maps. -/
def refreshSnapshots (s : RouterState) : RouterState :=
  let f := retainPos s.sharedFrames
  let i := retainPos s.sharedInfered
  { s with sharedFrames := f, framesSnap := f, sharedInfered := i, inferedSnap := i }

/-- Observable events of one frame dispatch. -/
structure FrameEvents where
  deliveredRaw : Option Nat
  offered : Option Nat
  enqueued : Bool
deriving DecidableEq, Repr

/-- One iteration of the inner receive loop of `FrameRouter::run`
(`router.rs` lines 52-76): deserialize the payload; on `FrameMsg`, hash the
message's own `id`, broadcast to the raw snapshot entry if present, and, if
the infered snapshot has an entry, `try_send_ref` into the inference queue
(dropping the frame silently when the queue is full).  Anything that is not
a well-formed `FrameMsg` is skipped. -/
def processFrame (s : RouterState) (data : List Nat) : RouterState × FrameEvents :=
  match ProtoMsg.deserialize data with
  | some (ProtoMsg.frameMsg m) =>
    let id := hashed m.id
    let delivered : Option Nat :=
      match lookupA s.framesSnap id with
      | some _ => some id
      | none => none
    match lookupA s.inferedSnap id with
    | some _ =>
      if s.inferQueue.length < inferQueueCapacity then
        ({ s with inferQueue := s.inferQueue ++ [⟨1280, 720, m.data, id⟩] },
         ⟨delivered, some id, true⟩)
      else
        (s, ⟨delivered, some id, false⟩)
    | none => (s, ⟨delivered, none, false⟩)
  | _ => (s, ⟨none, none, false⟩)

/-- `FrameRouter::run` over a list of incoming payloads: the loop refreshes
the snapshots, then receives four frames (`for _ in 0..4`), and repeats.
The counter is the number of frames left in the current batch. -/
def routerRun : RouterState → Nat → List (List Nat) → RouterState
  | s, _, [] => s
  | s, 0, d :: rest =>
    routerRun (processFrame (refreshSnapshots s) d).1 3 rest
  | s, Nat.succ k, d :: rest =>
    routerRun (processFrame s d).1 k rest

/-- Number of queued inference jobs carrying channel `c` (what the inference
worker will observe for that channel). -/
def countJobs (c : Nat) (q : List InferJob) : Nat :=
  (q.filter (fun j => decide (j.channel = c))).length

/-- Channel `c` has no annotated subscriber: every entry for `c` in the
shared infered broadcast map has receiver count `0`. -/
def noAnnotSubs (s : RouterState) (c : Nat) : Prop :=
  ∀ p ∈ s.sharedInfered, p.1 = c → p.2 = 0

/-! ### Model of `infer_server/src/data_socket.rs` (`handle_incoming`)

A publisher session is a function of the list of length-delimited payloads
received on its transport (a transport error or EOF simply ends the list).
The session first reads the `ConnectReq`, then forwards every decoded
`FrameMsg`'s data into the connect channel's broadcast sender.  The code
deserializes with `.unwrap()`, so an undecodable payload panics the session
task; the model makes that outcome explicit.  The send into the per-channel
inference mpsc (lines 72-80) has no bearing on the session-lifecycle claims
and is not recorded. -/

/-- Outcome of a publisher session: the `(channel, data)` broadcast sends it
performed, and whether it ended by `ProtoMsg::deserialize(..).unwrap()`
panicking on a malformed payload. -/
inductive SessionResult where
  | panicked (sent : List (ByteStr × ByteStr)) : SessionResult
  | finished (sent : List (ByteStr × ByteStr)) : SessionResult
deriving DecidableEq, Repr

/-- The `while let Some(Ok(frame))` loop of `handle_incoming`
(`data_socket.rs` lines 64-82): each payload is deserialized with
`.unwrap()` (malformed ⇒ panic); `FrameMsg` data is broadcast on the
connect channel `name`; any other well-formed message is ignored. -/
def sessionLoop (name : ByteStr) :
    List (List Nat) → List (ByteStr × ByteStr) → SessionResult
  | [], sent => SessionResult.finished sent
  | d :: rest, sent =>
    match ProtoMsg.deserialize d with
    | none => SessionResult.panicked sent
    | some (ProtoMsg.frameMsg m) => sessionLoop name rest (sent ++ [(name, m.data)])
    | some (ProtoMsg.connectReq _) => sessionLoop name rest sent

/-- Model of `handle_incoming` in `data_socket.rs`: the first payload is
deserialized with `.unwrap()` (malformed ⇒ panic); if it is a `ConnectReq`
the session streams, otherwise the session ends at once.  The function has
no access to any registry of live publishers — `NamedPubSub` hands the same
broadcast sender to every session asserting the same name. -/
def handle_incoming : List (List Nat) → SessionResult
  | [] => SessionResult.finished []
  | d :: rest =>
    match ProtoMsg.deserialize d with
    | none => SessionResult.panicked []
    | some (ProtoMsg.connectReq name) => sessionLoop name rest []
    | some (ProtoMsg.frameMsg _) => SessionResult.finished []

/-! ### Model of `infer_server/src/pubsub.rs` (`NamedPubSub` mpsc side)

`mpsc_map: Mutex<HashMap<String, (MpscBytesSender, Option<MpscBytesReceiver>)>>`
is an association list from the channel name to whether the receiving end is
still stored in the map (`true` = `Some(rx)` present). -/

/-- The mpsc map: name ↦ "receiver still held by the map". -/
abbrev MpscMap := List (ByteStr × Bool)

/-- Association-list lookup on byte-string keys. -/
def lookupS : MpscMap → ByteStr → Option Bool
  | [], _ => none
  | (k, v) :: t, n => if k = n then some v else lookupS t n

/-- Update the stored-receiver flag of an existing entry. -/
def setS : MpscMap → ByteStr → Bool → MpscMap
  | [], _, _ => []
  | (k, v) :: t, n, b => if k = n then (k, b) :: t else (k, v) :: setS t n b

/-- Model of `NamedPubSub::get_mpsc_receiver` (`pubsub.rs` lines 66-76):
on a hit, `rx_opt.take()` — return whatever is stored and leave `None`;
on a miss, create the pair, store `(tx, None)` and hand out the fresh
receiver.  `Option Unit` stands for `Option<MpscBytesReceiver>`. -/
def get_mpsc_receiver (m : MpscMap) (name : ByteStr) : Option Unit × MpscMap :=
  match lookupS m name with
  | some true => (some (), setS m name false)
  | some false => (none, m)
  | none => (some (), (name, false) :: m)

/-- Model of `NamedPubSub::return_mpsc_receiver` (`pubsub.rs` lines 79-84):
if the entry exists, put the receiver back (`rx_opt.replace(rx)`). -/
def return_mpsc_receiver (m : MpscMap) (name : ByteStr) : MpscMap :=
  match lookupS m name with
  | some _ => setS m name true
  | none => m

/-- Model of `NamedPubSub::get_mpsc_sender` (`pubsub.rs` lines 53-63):
on a miss, create the pair and store `(tx, Some(rx))`. -/
def get_mpsc_sender (m : MpscMap) (name : ByteStr) : MpscMap :=
  match lookupS m name with
  | some _ => m
  | none => (name, true) :: m

/-- The mpsc-map operations a client can perform. -/
inductive PubSubOp where
  | getSender (name : ByteStr) : PubSubOp
  | getReceiver (name : ByteStr) : PubSubOp
  | returnReceiver (name : ByteStr) : PubSubOp

/-- One operation applied to the map, tracking how many receivers each name
currently has handed out (`held`).  A client can only return a receiver it
actually holds, so `returnReceiver` with nothing held is a no-op. -/
def applyOp : MpscMap × (ByteStr → Nat) → PubSubOp → MpscMap × (ByteStr → Nat)
  | (m, held), PubSubOp.getSender n => (get_mpsc_sender m n, held)
  | (m, held), PubSubOp.getReceiver n =>
    match get_mpsc_receiver m n with
    | (some _, m2) => (m2, fun x => if x = n then held x + 1 else held x)
    | (none, m2) => (m2, held)
  | (m, held), PubSubOp.returnReceiver n =>
    if 0 < held n then
      (return_mpsc_receiver m n, fun x => if x = n then held x - 1 else held x)
    else (m, held)

/-- A client history run against an initially empty `NamedPubSub`. -/
def runPubSub (ops : List PubSubOp) : MpscMap × (ByteStr → Nat) :=
  ops.foldl applyOp ([], fun _ => 0)

/-- The single-consumer invariant tying the map to the held-receiver count. -/
def PubSubInv (st : MpscMap × (ByteStr → Nat)) : Prop :=
  ∀ n, st.2 n ≤ 1 ∧ (lookupS st.1 n = none → st.2 n = 0) ∧
    (lookupS st.1 n = some true → st.2 n = 0)

/-! ### Basic lemmas about `bbox_area` and `iou` -/

theorem bbox_area_nonneg (a : Bbox) : 0 ≤ bbox_area a := by
  unfold bbox_area
  dsimp only
  split
  · exact le_refl 0
  · rename_i h
    push_neg at h
    exact mul_nonneg h.1 h.2

theorem EPS_pos : 0 < EPS := by norm_num [EPS]

theorem iou_comm (a b : Bbox) : iou a b = iou b a := by
  unfold iou
  rw [max_comm a.xtl b.xtl, max_comm a.ytl b.ytl,
      min_comm a.xbr b.xbr, min_comm a.ybr b.ybr,
      add_comm (bbox_area a) (bbox_area b)]

theorem iou_self (a : Bbox) : iou a a = bbox_area a / (bbox_area a + EPS) := by
  unfold iou
  simp only [max_self, min_self]
  have h : (⟨a.xtl, a.ytl, a.xbr, a.ybr⟩ : Bbox) = a := rfl
  rw [h]
  ring_nf

theorem iou_self_eq_zero_iff (a : Bbox) : iou a a = 0 ↔ bbox_area a = 0 := by
  rw [iou_self]
  have hd : 0 < bbox_area a + EPS :=
    add_pos_of_nonneg_of_pos (bbox_area_nonneg a) EPS_pos
  constructor
  · intro h
    rcases div_eq_zero_iff.mp h with h0 | h0
    · exact h0
    · exact absurd h0 (ne_of_gt hd)
  · intro h
    rw [h, zero_div]

/-! ### Structure of the non-maximum-suppression loop -/

theorem nmsLoop_sublist (m : ℚ) :
    ∀ (cs sel : List (Bbox × ℚ)), List.Sublist (nmsLoop m sel cs) (sel ++ cs)
  | [], sel => by simp [nmsLoop]
  | c :: rest, sel => by
    unfold nmsLoop
    split
    · have h := nmsLoop_sublist m rest sel
      exact h.trans (List.Sublist.append_left (List.sublist_cons_self c rest) sel)
    · have h := nmsLoop_sublist m rest (sel ++ [c])
      simpa using h

theorem nmsLoop_pairwise (m : ℚ) :
    ∀ (cs sel : List (Bbox × ℚ)),
      sel.Pairwise (fun a b => iou a.1 b.1 ≤ m) →
      (nmsLoop m sel cs).Pairwise (fun a b => iou a.1 b.1 ≤ m)
  | [], sel, hsel => by simpa [nmsLoop] using hsel
  | c :: rest, sel, hsel => by
    unfold nmsLoop
    split
    · exact nmsLoop_pairwise m rest sel hsel
    · rename_i hany
      refine nmsLoop_pairwise m rest (sel ++ [c]) ?_
      rw [List.pairwise_append]
      refine ⟨hsel, List.pairwise_singleton _ _, ?_⟩
      intro s hs b hb
      rw [List.mem_singleton] at hb
      subst hb
      have h := (List.any_eq_false.mp (Bool.of_not_eq_true hany)) s hs
      rw [decide_eq_true_eq] at h
      rw [iou_comm]
      exact not_lt.mp h

theorem nmsLoop_accept_all (m : ℚ) :
    ∀ (cs sel : List (Bbox × ℚ)),
      cs.Pairwise (fun a b => iou a.1 b.1 ≤ m) →
      (∀ s ∈ sel, ∀ c ∈ cs, iou c.1 s.1 ≤ m) →
      nmsLoop m sel cs = sel ++ cs
  | [], sel, _, _ => by simp [nmsLoop]
  | c :: rest, sel, hcs, hsc => by
    unfold nmsLoop
    have hany : sel.any (fun s => decide (m < iou c.1 s.1)) = false := by
      rw [List.any_eq_false]
      intro s hs
      simp only [decide_eq_true_eq, not_lt]
      exact hsc s hs c (List.mem_cons_self c rest)
    rw [hany]
    simp only [Bool.false_eq_true, if_false]
    have hrest : nmsLoop m (sel ++ [c]) rest = (sel ++ [c]) ++ rest := by
      refine nmsLoop_accept_all m rest (sel ++ [c]) (List.Pairwise.of_cons hcs) ?_
      intro s hs b hb
      rcases List.mem_append.mp hs with h | h
      · exact hsc s h b (List.mem_cons_of_mem c hb)
      · rw [List.mem_singleton] at h
        subst h
        have := (List.pairwise_cons.mp hcs).1 b hb
        rwa [iou_comm]
    rw [hrest, List.append_assoc]
    rfl

theorem nms_pairwise (l : List (Bbox × ℚ)) (m : ℚ) :
    (non_maximum_suppression l m).Pairwise (fun a b => iou a.1 b.1 ≤ m) :=
  nmsLoop_pairwise m l.reverse [] (List.Pairwise.nil)

theorem nms_of_pairwise (l : List (Bbox × ℚ)) (m : ℚ)
    (h : l.Pairwise (fun a b => iou a.1 b.1 ≤ m)) :
    non_maximum_suppression l m = l.reverse := by
  unfold non_maximum_suppression
  have hrev : l.reverse.Pairwise (fun a b => iou a.1 b.1 ≤ m) := by
    rw [List.pairwise_reverse]
    exact h.imp (fun hab => by rwa [iou_comm])
  have := nmsLoop_accept_all m l.reverse [] hrev (by intro s hs; exact absurd hs (List.not_mem_nil s))
  simpa using this

theorem nmsLoop_eq_specLoop (m : ℚ) :
    ∀ (cs sel : List (Bbox × ℚ)), nmsLoop m sel cs = nmsSpecLoop m sel cs
  | [], _ => rfl
  | c :: rest, sel => by
    unfold nmsLoop nmsSpecLoop
    cases hall : sel.all (fun s => decide (iou c.1 s.1 ≤ m)) with
    | true =>
      have hany : (sel.any fun s => decide (m < iou c.1 s.1)) = false := by
        rw [List.any_eq_false]
        intro s hs
        have h := List.all_eq_true.mp hall s hs
        simp only [decide_eq_true_eq] at h ⊢
        exact not_lt.mpr h
      rw [hany]
      simp only [Bool.false_eq_true, if_false, if_true]
      exact nmsLoop_eq_specLoop m rest (sel ++ [c])
    | false =>
      have hany : (sel.any fun s => decide (m < iou c.1 s.1)) = true := by
        rw [List.any_eq_true]
        have h : ¬ (∀ s ∈ sel, iou c.1 s.1 ≤ m) := by
          intro hc
          have ht : sel.all (fun s => decide (iou c.1 s.1 ≤ m)) = true :=
            List.all_eq_true.mpr (fun s hs => decide_eq_true_eq.mpr (hc s hs))
          rw [hall] at ht
          exact Bool.false_ne_true ht
        push_neg at h
        obtain ⟨s, hs, hns⟩ := h
        exact ⟨s, hs, decide_eq_true_eq.mpr hns⟩
      rw [hany]
      simp only [if_true, Bool.false_eq_true, if_false]
      exact nmsLoop_eq_specLoop m rest sel

/-! ### Round-trip of the wire encoding -/

theorem natToLEBytes_length : ∀ (w n : Nat), (natToLEBytes w n).length = w
  | 0, _ => rfl
  | w + 1, n => by
    unfold natToLEBytes
    simp [natToLEBytes_length w]

theorem leValue_natToLEBytes : ∀ (w n : Nat), n < 256 ^ w →
    leValue (natToLEBytes w n) = n
  | 0, n, h => by
    simp only [pow_zero, Nat.lt_one_iff] at h
    simp [natToLEBytes, leValue, h]
  | w + 1, n, h => by
    unfold natToLEBytes leValue
    have hdiv : n / 256 < 256 ^ w := by
      rw [Nat.div_lt_iff_lt_mul (by norm_num : 0 < 256)]
      calc n < 256 ^ (w + 1) := h
        _ = 256 ^ w * 256 := by ring
    rw [leValue_natToLEBytes w (n / 256) hdiv]
    omega

theorem readBytes_append (k : Nat) (bs t : List Nat) (h : bs.length = k) :
    readBytes k (bs ++ t) = some (bs, t) := by
  unfold readBytes
  rw [if_pos]
  · rw [List.take_append_eq_append_take, List.drop_append_eq_append_drop]
    simp [h]
  · simp [h]

theorem readPrefixed_append (p t : List Nat) (h : p.length < 2 ^ 64) :
    readPrefixed (natToLEBytes 8 p.length ++ (p ++ t)) = some (p, t) := by
  unfold readPrefixed
  rw [readBytes_append 8 _ _ (natToLEBytes_length 8 _)]
  have h256 : p.length < 256 ^ 8 := by
    have he : (256 : Nat) ^ 8 = 2 ^ 64 := by norm_num
    omega
  dsimp only
  rw [leValue_natToLEBytes 8 p.length h256, readBytes_append _ _ _ rfl]

theorem deserialize_serialize_connect (name : ByteStr) (h : name.length < 2 ^ 64) :
    ProtoMsg.deserialize (ProtoMsg.serialize (ProtoMsg.connectReq name))
      = some (ProtoMsg.connectReq name) := by
  show ProtoMsg.deserialize
      (natToLEBytes 4 0 ++ natToLEBytes 8 name.length ++ name)
    = some (ProtoMsg.connectReq name)
  unfold ProtoMsg.deserialize
  rw [List.append_assoc, readBytes_append 4 _ _ (natToLEBytes_length 4 _)]
  dsimp only
  have h0 : leValue (natToLEBytes 4 0) = 0 := by decide
  rw [h0]
  have hpre := readPrefixed_append name [] h
  rw [List.append_nil] at hpre
  rw [hpre]

theorem deserialize_serialize_frame (m : FrameMsg)
    (h1 : m.id.length < 2 ^ 64) (h2 : m.data.length < 2 ^ 64) :
    ProtoMsg.deserialize (ProtoMsg.serialize (ProtoMsg.frameMsg m))
      = some (ProtoMsg.frameMsg m) := by
  show ProtoMsg.deserialize
      (natToLEBytes 4 1 ++ natToLEBytes 8 m.id.length ++ m.id
        ++ natToLEBytes 8 m.data.length ++ m.data)
    = some (ProtoMsg.frameMsg m)
  unfold ProtoMsg.deserialize
  rw [List.append_assoc, List.append_assoc, List.append_assoc,
      readBytes_append 4 _ _ (natToLEBytes_length 4 _)]
  dsimp only
  have h1v : leValue (natToLEBytes 4 1) = 1 := by decide
  rw [h1v]
  rw [show m.id ++ (natToLEBytes 8 m.data.length ++ m.data)
        = m.id ++ (natToLEBytes 8 m.data.length ++ (m.data ++ [])) by simp]
  rw [readPrefixed_append m.id _ h1]
  dsimp only
  rw [readPrefixed_append m.data [] h2]

/-! ### Router invariants -/

theorem processFrame_fields (s : RouterState) (d : List Nat) :
    ((processFrame s d).1.sharedFrames = s.sharedFrames) ∧
    ((processFrame s d).1.sharedInfered = s.sharedInfered) ∧
    ((processFrame s d).1.framesSnap = s.framesSnap) ∧
    ((processFrame s d).1.inferedSnap = s.inferedSnap) ∧
    ((processFrame s d).1.meterRaw = s.meterRaw) ∧
    ((processFrame s d).1.meterInfered = s.meterInfered) := by
  cases hdes : ProtoMsg.deserialize d with
  | none => simp [processFrame, hdes]
  | some msg =>
    cases msg with
    | connectReq n => simp [processFrame, hdes]
    | frameMsg m =>
      cases hlk : lookupA s.inferedSnap (hashed m.id) with
      | none => simp [processFrame, hdes, hlk]
      | some v =>
        by_cases hq : s.inferQueue.length < inferQueueCapacity <;>
          simp [processFrame, hdes, hlk, hq]

theorem processFrame_countJobs (s : RouterState) (d : List Nat) (c : Nat)
    (h : lookupA s.inferedSnap c = none) :
    countJobs c (processFrame s d).1.inferQueue = countJobs c s.inferQueue := by
  cases hdes : ProtoMsg.deserialize d with
  | none => simp [processFrame, hdes]
  | some msg =>
    cases msg with
    | connectReq n => simp [processFrame, hdes]
    | frameMsg m =>
      cases hlk : lookupA s.inferedSnap (hashed m.id) with
      | none => simp [processFrame, hdes, hlk]
      | some v =>
        have hne : decide ((⟨1280, 720, m.data, hashed m.id⟩ : InferJob).channel = c) = false := by
          simp only [decide_eq_false_iff_not]
          intro he
          rw [he, h] at hlk
          exact Option.noConfusion hlk
        by_cases hq : s.inferQueue.length < inferQueueCapacity
        · simp [processFrame, hdes, hlk, hq, countJobs, List.filter_append, hne]
        · simp [processFrame, hdes, hlk, hq]

theorem lookupA_retainPos_none (m : List (Nat × Nat)) (c : Nat)
    (h : ∀ p ∈ m, p.1 = c → p.2 = 0) : lookupA (retainPos m) c = none := by
  induction m with
  | nil => rfl
  | cons e t ih =>
    obtain ⟨k, v⟩ := e
    have ht : ∀ p ∈ t, p.1 = c → p.2 = 0 :=
      fun p hp => h p (List.mem_cons_of_mem _ hp)
    by_cases hpos : 0 < v
    · have hk : retainPos ((k, v) :: t) = (k, v) :: retainPos t := by
        simp [retainPos, List.filter, hpos]
      rw [hk]
      by_cases hkc : k = c
      · exact absurd (h (k, v) (List.mem_cons_self _ _) hkc) (Nat.pos_iff_ne_zero.mp hpos)
      · simp only [lookupA, if_neg hkc]
        exact ih ht
    · have hk : retainPos ((k, v) :: t) = retainPos t := by
        simp [retainPos, List.filter, hpos]
      rw [hk]
      exact ih ht

theorem noAnnotSubs_refresh (s : RouterState) (c : Nat)
    (h : noAnnotSubs s c) : noAnnotSubs (refreshSnapshots s) c := by
  intro p hp hc
  exact h p (List.mem_of_mem_filter hp) hc

theorem routerRun_countJobs (c : Nat) :
    ∀ (frames : List (List Nat)) (k : Nat) (s : RouterState),
      noAnnotSubs s c →
      (lookupA s.inferedSnap c = none ∨ k = 0) →
      countJobs c (routerRun s k frames).inferQueue = countJobs c s.inferQueue
  | [], k, s, _, _ => by cases k <;> rfl
  | d :: rest, 0, s, hna, _ => by
    unfold routerRun
    have hna1 : noAnnotSubs (refreshSnapshots s) c := noAnnotSubs_refresh s c hna
    have hsnap1 : lookupA (refreshSnapshots s).inferedSnap c = none :=
      lookupA_retainPos_none _ _ hna
    have hc2 : countJobs c (processFrame (refreshSnapshots s) d).1.inferQueue
        = countJobs c (refreshSnapshots s).inferQueue :=
      processFrame_countJobs _ d c hsnap1
    have hna2 : noAnnotSubs (processFrame (refreshSnapshots s) d).1 c := by
      unfold noAnnotSubs
      simp only [(processFrame_fields _ d).2.1]
      exact hna1
    have hsnap2 : lookupA (processFrame (refreshSnapshots s) d).1.inferedSnap c = none := by
      rw [(processFrame_fields _ d).2.2.2.1]
      exact hsnap1
    rw [routerRun_countJobs c rest 3 _ hna2 (Or.inl hsnap2), hc2]
    rfl
  | d :: rest, Nat.succ k, s, hna, hsnap => by
    unfold routerRun
    have hs : lookupA s.inferedSnap c = none := by
      rcases hsnap with h | h
      · exact h
      · exact absurd h (Nat.succ_ne_zero k)
    have hc2 := processFrame_countJobs s d c hs
    have hna2 : noAnnotSubs (processFrame s d).1 c := by
      unfold noAnnotSubs
      simp only [(processFrame_fields s d).2.1]
      exact hna
    have hsnap2 : lookupA (processFrame s d).1.inferedSnap c = none := by
      rw [(processFrame_fields s d).2.2.2.1]
      exact hs
    rw [routerRun_countJobs c rest k _ hna2 (Or.inl hsnap2), hc2]

/-! ### Publisher-session and pubsub lemmas -/

theorem sessionLoop_frames (name : ByteStr) :
    ∀ (frames : List FrameMsg) (sent : List (ByteStr × ByteStr)),
      (∀ fr ∈ frames, fr.id.length < 2 ^ 64 ∧ fr.data.length < 2 ^ 64) →
      sessionLoop name
          (frames.map (fun fr => ProtoMsg.serialize (ProtoMsg.frameMsg fr))) sent
        = SessionResult.finished (sent ++ frames.map (fun fr => (name, fr.data)))
  | [], sent, _ => by simp [sessionLoop]
  | fr :: rest, sent, h => by
    have hb := h fr (List.mem_cons_self _ _)
    have hrest : ∀ g ∈ rest, g.id.length < 2 ^ 64 ∧ g.data.length < 2 ^ 64 :=
      fun g hg => h g (List.mem_cons_of_mem _ hg)
    simp only [List.map_cons, sessionLoop,
      deserialize_serialize_frame fr hb.1 hb.2]
    rw [sessionLoop_frames name rest (sent ++ [(name, fr.data)]) hrest]
    simp

theorem lookupS_setS_self : ∀ (m : MpscMap) (n : ByteStr) (v b : Bool),
    lookupS m n = some v → lookupS (setS m n b) n = some b
  | [], n, v, b, h => by cases h
  | (k, w) :: t, n, v, b, h => by
    by_cases hk : k = n
    · simp [setS, lookupS, hk]
    · simp only [setS, if_neg hk, lookupS]
      simp only [lookupS, if_neg hk] at h
      exact lookupS_setS_self t n v b h

theorem lookupS_after_get (m : MpscMap) (n : ByteStr) :
    lookupS (get_mpsc_receiver m n).2 n = some false := by
  unfold get_mpsc_receiver
  cases hl : lookupS m n with
  | none => simp [lookupS]
  | some b =>
    cases b with
    | true => exact lookupS_setS_self m n true false hl
    | false => simpa using hl

theorem lookupS_cons_ne (k : ByteStr) (b : Bool) (m : MpscMap) (x : ByteStr)
    (hxk : ¬ (k = x)) : lookupS ((k, b) :: m) x = lookupS m x := by
  simp [lookupS, hxk]

theorem lookupS_setS_ne : ∀ (m : MpscMap) (n x : ByteStr) (b : Bool),
    ¬ (x = n) → lookupS (setS m n b) x = lookupS m x
  | [], _, _, _, _ => rfl
  | (k, w) :: t, n, x, b, hxn => by
    by_cases hk : k = n
    · subst hk
      have hkx : ¬ (k = x) := fun he => hxn (he.symm)
      simp [setS, lookupS, hkx]
    · simp only [setS, if_neg hk, lookupS]
      by_cases hkx : k = x
      · simp [hkx]
      · simp only [if_neg hkx]
        exact lookupS_setS_ne t n x b hxn

theorem lookupS_return_some_false (m : MpscMap) (n : ByteStr)
    (hl : lookupS m n = some false) :
    lookupS (return_mpsc_receiver m n) n = some true := by
  unfold return_mpsc_receiver
  rw [hl]
  exact lookupS_setS_self m n false true hl

theorem applyOp_inv (st : MpscMap × (ByteStr → Nat)) (op : PubSubOp)
    (h : PubSubInv st) : PubSubInv (applyOp st op) := by
  obtain ⟨m, held⟩ := st
  cases op with
  | getSender n =>
    intro x
    simp only [applyOp, get_mpsc_sender]
    cases hl : lookupS m n with
    | some b => exact h x
    | none =>
      by_cases hxn : x = n
      · subst hxn
        refine ⟨(h x).1, ?_, ?_⟩
        · intro hx
          simp [lookupS] at hx
        · intro _
          exact (h x).2.1 hl
      · have hc := lookupS_cons_ne n true m x (fun he => hxn he.symm)
        rw [hc]
        exact h x
  | getReceiver n =>
    intro x
    simp only [applyOp]
    cases hl : lookupS m n with
    | none =>
      simp only [get_mpsc_receiver, hl]
      by_cases hxn : x = n
      · subst hxn
        have h0 : held x = 0 := (h x).2.1 hl
        refine ⟨?_, ?_, ?_⟩
        · simp [h0]
        · intro hx
          simp [lookupS] at hx
        · intro hx
          simp [lookupS] at hx
      · have hc := lookupS_cons_ne n false m x (fun he => hxn he.symm)
        rw [hc]
        simp only [if_neg hxn]
        exact h x
    | some b =>
      cases b with
      | false =>
        simp only [get_mpsc_receiver, hl]
        exact h x
      | true =>
        simp only [get_mpsc_receiver, hl]
        by_cases hxn : x = n
        · subst hxn
          have h0 : held x = 0 := (h x).2.2 hl
          have hsf : lookupS (setS m x false) x = some false :=
            lookupS_setS_self m x true false hl
          refine ⟨?_, ?_, ?_⟩
          · simp [h0]
          · intro hx
            rw [hsf] at hx
            cases hx
          · intro hx
            rw [hsf] at hx
            cases hx
        · have hc := lookupS_setS_ne m n x false hxn
          rw [hc]
          simp only [if_neg hxn]
          exact h x
  | returnReceiver n =>
    intro x
    simp only [applyOp]
    by_cases hpos : 0 < held n
    · simp only [if_pos hpos]
      have hlf : lookupS m n = some false := by
        cases hl : lookupS m n with
        | none =>
          have h0 : held n = 0 := (h n).2.1 hl
          omega
        | some b =>
          cases b with
          | false => rfl
          | true =>
            have h0 : held n = 0 := (h n).2.2 hl
            omega
      have hrt : lookupS (return_mpsc_receiver m n) n = some true :=
        lookupS_return_some_false m n hlf
      by_cases hxn : x = n
      · subst hxn
        have h1 : held x ≤ 1 := (h x).1
        have hred : (if x = x then held x - 1 else held x) = held x - 1 := if_pos rfl
        refine ⟨?_, ?_, ?_⟩
        · rw [hred]
          omega
        · intro hx
          rw [hrt] at hx
          cases hx
        · intro _
          rw [hred]
          omega
      · have hc : lookupS (return_mpsc_receiver m n) x = lookupS m x := by
          unfold return_mpsc_receiver
          rw [hlf]
          exact lookupS_setS_ne m n x true hxn
        rw [hc]
        simp only [if_neg hxn]
        exact h x
    · simp only [if_neg hpos]
      exact h x

theorem runPubSub_inv (ops : List PubSubOp) : PubSubInv (runPubSub ops) := by
  have hgen : ∀ (l : List PubSubOp) (st : MpscMap × (ByteStr → Nat)),
      PubSubInv st → PubSubInv (l.foldl applyOp st) := by
    intro l
    induction l with
    | nil => intro st h; exact h
    | cons op t ih =>
      intro st h
      exact ih _ (applyOp_inv st op h)
  refine hgen ops ([], fun _ => 0) ?_
  intro n
  exact ⟨Nat.zero_le 1, fun _ => rfl, fun h => by cases h⟩

/-! ### Remaining helper lemmas -/

theorem processFrame_offered (s : RouterState) (d : List Nat) (c : Nat)
    (h : (processFrame s d).2.offered = some c) :
    (lookupA s.inferedSnap c).isSome = true := by
  cases hdes : ProtoMsg.deserialize d with
  | none => simp [processFrame, hdes] at h
  | some msg =>
    cases msg with
    | connectReq n => simp [processFrame, hdes] at h
    | frameMsg m =>
      cases hlk : lookupA s.inferedSnap (hashed m.id) with
      | none => simp [processFrame, hdes, hlk] at h
      | some v =>
        by_cases hq : s.inferQueue.length < inferQueueCapacity <;>
          simp only [processFrame, hdes, hlk, hq, if_pos, if_neg,
            if_true, if_false] at h <;>
        · have hc : hashed m.id = c := by
            simpa using h
          rw [← hc, hlk]
          rfl

theorem mem_filterByConf_gt (mc : F32) (pairs : List (Bbox × F32))
    (p : Bbox × F32) (h : p ∈ filterByConf mc pairs) : p.2.gtF mc = true := by
  unfold filterByConf at h
  obtain ⟨a, _, hf⟩ := List.mem_filterMap.mp h
  by_cases hg : a.2.gtF mc
  · rw [if_pos hg] at hf
    cases hf
    exact hg
  · rw [if_neg hg] at hf
    cases hf

theorem gtF_left_val (x y : F32) (h : F32.gtF x y = true) : ∃ q, x = F32.val q := by
  cases x with
  | nan => cases y <;> simp [F32.gtF] at h
  | val q => exact ⟨q, rfl⟩

theorem get_mpsc_receiver_none_of_false (m : MpscMap) (n : ByteStr)
    (h : lookupS m n = some false) : (get_mpsc_receiver m n).1 = none := by
  unfold get_mpsc_receiver
  rw [h]

theorem get_mpsc_receiver_some_of_true (m : MpscMap) (n : ByteStr)
    (h : lookupS m n = some true) : (get_mpsc_receiver m n).1 = some () := by
  unfold get_mpsc_receiver
  rw [h]

theorem nms_mergeSort_pairwise (mi : ℚ) (l : List (Bbox × ℚ)) :
    (non_maximum_suppression (l.mergeSort (fun a b => decide (a.2 ≤ b.2))) mi).Pairwise
      (fun a b => b.2 ≤ a.2) := by
  have htrans : ∀ (a b c : Bbox × ℚ),
      (fun x y : Bbox × ℚ => decide (x.2 ≤ y.2)) a b = true →
      (fun x y : Bbox × ℚ => decide (x.2 ≤ y.2)) b c = true →
      (fun x y : Bbox × ℚ => decide (x.2 ≤ y.2)) a c = true := by
    intro a b c hab hbc
    simp only [decide_eq_true_eq] at hab hbc ⊢
    exact le_trans hab hbc
  have htot : ∀ (a b : Bbox × ℚ),
      ((fun x y : Bbox × ℚ => decide (x.2 ≤ y.2)) a b
        || (fun x y : Bbox × ℚ => decide (x.2 ≤ y.2)) b a) = true := by
    intro a b
    simp only [Bool.or_eq_true, decide_eq_true_eq]
    exact le_total a.2 b.2
  have hsor := @List.sorted_mergeSort (Bbox × ℚ)
      (fun x y : Bbox × ℚ => decide (x.2 ≤ y.2)) htrans htot l
  have hs2 : (l.mergeSort (fun x y : Bbox × ℚ => decide (x.2 ≤ y.2))).Pairwise
      (fun a b : Bbox × ℚ => a.2 ≤ b.2) :=
    hsor.imp (fun h => decide_eq_true_eq.mp h)
  have hrev : ((l.mergeSort (fun x y : Bbox × ℚ => decide (x.2 ≤ y.2))).reverse).Pairwise
      (fun a b : Bbox × ℚ => b.2 ≤ a.2) := by
    rw [List.pairwise_reverse]
    exact hs2
  have hsub := nmsLoop_sublist mi
      ((l.mergeSort (fun x y : Bbox × ℚ => decide (x.2 ≤ y.2))).reverse) []
  simp only [List.nil_append] at hsub
  exact List.Pairwise.sublist hsub hrev

/-! ### Claim theorems -/

/-- C1: A frame is offered (`try_send_ref`) to the inference queue only if the
router's annotated-sender snapshot has an entry for the frame's channel at the
time of the offer; and for a channel on which every shared annotated broadcast
entry has zero receivers, an entire router run — however many frames are
published — adds no inference job for that channel, so the inference worker
observes zero jobs for it. -/
theorem router_no_annot_subs_no_infer_jobs :
    (∀ (s : RouterState) (d : List Nat) (c : Nat),
        (processFrame s d).2.offered = some c →
        (lookupA s.inferedSnap c).isSome = true) ∧
    (∀ (s : RouterState) (frames : List (List Nat)) (c : Nat),
        noAnnotSubs s c →
        countJobs c (routerRun s 0 frames).inferQueue
          = countJobs c s.inferQueue) :=
  ⟨processFrame_offered,
   fun s frames c hna => routerRun_countJobs c frames 0 s hna (Or.inr rfl)⟩

/-- Witness for C1: a router with no subscribers at all receives eight
`FrameMsg` payloads for channel `"cam"` (bytes `[99, 97, 109]`); the job
count for that channel stays at its initial value, and evaluating the run
shows that value is `0`. -/
theorem router_no_annot_subs_no_infer_jobs_witness :
    countJobs (hashed [99, 97, 109])
        (routerRun ⟨[], [], [], [], [], 0, 0⟩ 0
          (List.replicate 8 (ProtoMsg.serialize
            (ProtoMsg.frameMsg ⟨[99, 97, 109], [7]⟩)))).inferQueue
      = countJobs (hashed [99, 97, 109])
          (⟨[], [], [], [], [], 0, 0⟩ : RouterState).inferQueue ∧
    countJobs (hashed [99, 97, 109])
        (⟨[], [], [], [], [], 0, 0⟩ : RouterState).inferQueue = 0 :=
  ⟨router_no_annot_subs_no_infer_jobs.2 ⟨[], [], [], [], [], 0, 0⟩
      (List.replicate 8 (ProtoMsg.serialize
        (ProtoMsg.frameMsg ⟨[99, 97, 109], [7]⟩)))
      (hashed [99, 97, 109])
      (fun p hp => absurd hp (List.not_mem_nil p)),
   by decide⟩

/-- C2: `UltrafaceModel::postproc` coincides with the spec §4.3.1 pipeline —
keep pairs with confidence strictly above `min_confidence`, sort by ascending
confidence, accept a candidate (most confident first) iff its IoU with every
already-accepted box is at most `max_iou`, return in acceptance order — and
the returned list is ordered most-confident-first; the default thresholds are
`0.5` and `0.5`. -/
theorem postproc_matches_spec_pipeline (min_confidence max_iou : ℚ)
    (confRows : List (ℚ × ℚ)) (boxRows : List Bbox) :
    postproc min_confidence max_iou confRows boxRows
      = postprocSpec min_confidence max_iou confRows boxRows ∧
    (postproc min_confidence max_iou confRows boxRows).Pairwise
      (fun a b => b.2 ≤ a.2) ∧
    minConfidenceDefault = 1 / 2 ∧ maxIouDefault = 1 / 2 := by
  refine ⟨?_, ?_, rfl, rfl⟩
  · unfold postproc postprocSpec non_maximum_suppression
    exact nmsLoop_eq_specLoop max_iou _ []
  · unfold postproc
    exact nms_mergeSort_pairwise max_iou _

/-- C3 (amended): the inference queue capacity is 10
(`StaticChannel<StaticImage, 10>`), and when the queue is full the
`try_send_ref` offer drops the frame and leaves the entire router state —
including every counter the program has — unchanged; no dropped-for-inference
counter exists, so none is incremented. -/
theorem infer_queue_capacity_and_silent_drop :
    inferQueueCapacity = 10 ∧
    ∀ (s : RouterState) (d : List Nat),
      inferQueueCapacity ≤ s.inferQueue.length →
      (processFrame s d).1 = s ∧ (processFrame s d).2.enqueued = false := by
  refine ⟨rfl, ?_⟩
  intro s d h
  cases hdes : ProtoMsg.deserialize d with
  | none => simp [processFrame, hdes]
  | some msg =>
    cases msg with
    | connectReq n => simp [processFrame, hdes]
    | frameMsg m =>
      cases hlk : lookupA s.inferedSnap (hashed m.id) with
      | none => simp [processFrame, hdes, hlk]
      | some v =>
        have hq : ¬ s.inferQueue.length < inferQueueCapacity := not_lt.mpr h
        simp [processFrame, hdes, hlk, hq]

/-- Witness for C3: a concrete router state whose inference queue holds ten
jobs; a further frame for the subscribed channel is dropped and the state is
unchanged. -/
theorem infer_queue_capacity_and_silent_drop_witness :
    inferQueueCapacity ≤
      (⟨[], [], [], [(hashed [42], 1)],
        List.replicate 10 ⟨1280, 720, [9], hashed [42]⟩, 0, 0⟩ :
          RouterState).inferQueue.length ∧
    ((processFrame
        ⟨[], [], [], [(hashed [42], 1)],
          List.replicate 10 ⟨1280, 720, [9], hashed [42]⟩, 0, 0⟩
        (ProtoMsg.serialize (ProtoMsg.frameMsg ⟨[42], [9]⟩))).1
      = ⟨[], [], [], [(hashed [42], 1)],
          List.replicate 10 ⟨1280, 720, [9], hashed [42]⟩, 0, 0⟩ ∧
     (processFrame
        ⟨[], [], [], [(hashed [42], 1)],
          List.replicate 10 ⟨1280, 720, [9], hashed [42]⟩, 0, 0⟩
        (ProtoMsg.serialize (ProtoMsg.frameMsg ⟨[42], [9]⟩))).2.enqueued
      = false) :=
  ⟨by decide,
   infer_queue_capacity_and_silent_drop.2
     ⟨[], [], [], [(hashed [42], 1)],
       List.replicate 10 ⟨1280, 720, [9], hashed [42]⟩, 0, 0⟩
     (ProtoMsg.serialize (ProtoMsg.frameMsg ⟨[42], [9]⟩)) (by decide)⟩

/-- Counterexample for C3 as stated: with the queue full, the frame is
offered and dropped, but the router state — in particular the only counters
the program has, `METER.raw_frames` and `METER.infered_frames` — is entirely
unchanged: no "dropped-for-inference counter" is incremented (none exists in
the code). -/
theorem infer_queue_full_increments_no_counter_cex :
    (processFrame
        ⟨[], [], [], [(hashed [42], 1)],
          List.replicate 10 ⟨1280, 720, [9], hashed [42]⟩, 0, 0⟩
        (ProtoMsg.serialize (ProtoMsg.frameMsg ⟨[42], [9]⟩))).2.offered
      = some (hashed [42]) ∧
    (processFrame
        ⟨[], [], [], [(hashed [42], 1)],
          List.replicate 10 ⟨1280, 720, [9], hashed [42]⟩, 0, 0⟩
        (ProtoMsg.serialize (ProtoMsg.frameMsg ⟨[42], [9]⟩))).2.enqueued
      = false ∧
    (processFrame
        ⟨[], [], [], [(hashed [42], 1)],
          List.replicate 10 ⟨1280, 720, [9], hashed [42]⟩, 0, 0⟩
        (ProtoMsg.serialize (ProtoMsg.frameMsg ⟨[42], [9]⟩))).1
      = ⟨[], [], [], [(hashed [42], 1)],
          List.replicate 10 ⟨1280, 720, [9], hashed [42]⟩, 0, 0⟩ := by
  decide

/-- C4 (code bug): in `data_socket.rs` the session deserializes every payload
with `.unwrap()`; after a successful `ConnectReq` for `"cam"`, a single
malformed payload (`[255]` does not decode) panics the session task instead
of being discarded. -/
theorem malformed_payload_panics_session :
    handle_incoming [ProtoMsg.serialize (ProtoMsg.connectReq [99, 97, 109]),
        [255]]
      = SessionResult.panicked [] ∧
    ProtoMsg.deserialize [255] = none := by
  decide

/-- Counterexample for C5 as stated: a publisher session asserting `"cam"`
(which another live publisher may already hold — `handle_incoming` consults
no registry of live publishers, as its argument list shows) is not terminated
after its connect message: it goes on to broadcast its frame on `"cam"` and
finishes normally. -/
theorem second_publisher_same_name_not_terminated_cex :
    handle_incoming [ProtoMsg.serialize (ProtoMsg.connectReq [99, 97, 109]),
        ProtoMsg.serialize (ProtoMsg.frameMsg ⟨[99, 97, 109], [1]⟩)]
      = SessionResult.finished [([99, 97, 109], [1])] := by
  decide

/-- C5 (amended): the server performs no publisher-conflict detection — there
is no `PublisherConflict` anywhere in the code.  Every session whose first
payload decodes to a `ConnectReq`, regardless of any other live publisher on
the same name, streams all its subsequent well-formed frames into the
channel's broadcast sender. -/
theorem publisher_connect_always_accepted (name : ByteStr)
    (frames : List FrameMsg) (h : name.length < 2 ^ 64)
    (hf : ∀ fr ∈ frames, fr.id.length < 2 ^ 64 ∧ fr.data.length < 2 ^ 64) :
    handle_incoming (ProtoMsg.serialize (ProtoMsg.connectReq name)
        :: frames.map (fun fr => ProtoMsg.serialize (ProtoMsg.frameMsg fr)))
      = SessionResult.finished (frames.map (fun fr => (name, fr.data))) := by
  simp only [handle_incoming]
  rw [deserialize_serialize_connect name h]
  have hs := sessionLoop_frames name frames [] hf
  rw [List.nil_append] at hs
  exact hs

/-- Witness for C5: a session connecting as `"b"` (byte `[98]`) then sending
two frames — the second one even carrying a foreign id `[120]` — forwards
both data payloads on channel `"b"` and finishes. -/
theorem publisher_connect_always_accepted_witness :
    (([98] : ByteStr).length < 2 ^ 64 ∧
      ∀ fr ∈ [(⟨[98], [2]⟩ : FrameMsg), ⟨[120], [3]⟩],
        fr.id.length < 2 ^ 64 ∧ fr.data.length < 2 ^ 64) ∧
    handle_incoming (ProtoMsg.serialize (ProtoMsg.connectReq [98])
        :: ([(⟨[98], [2]⟩ : FrameMsg), ⟨[120], [3]⟩].map
            (fun fr => ProtoMsg.serialize (ProtoMsg.frameMsg fr))))
      = SessionResult.finished
          ([(⟨[98], [2]⟩ : FrameMsg), ⟨[120], [3]⟩].map
            (fun fr => ([98], fr.data))) :=
  ⟨⟨by decide, by decide⟩,
   publisher_connect_always_accepted [98] [⟨[98], [2]⟩, ⟨[120], [3]⟩]
     (by decide) (by decide)⟩

/-- Counterexample for C6 as stated: the router routes a `FrameMsg` by the
message's own `id`.  A frame with id `"other"` (`[111, 116, 104, 101, 114]`),
received on a session whose connect name is `"cam"` (`[99, 97, 109]`, a
different byte string), is not dropped: it is delivered to the raw subscriber
of channel `hashed "other"`, and the state (hence every counter) is
unchanged. -/
theorem mismatched_frame_id_delivered_cex :
    ([111, 116, 104, 101, 114] : ByteStr) ≠ ([99, 97, 109] : ByteStr) ∧
    (processFrame
        ⟨[(hashed [111, 116, 104, 101, 114], 1)], [],
          [(hashed [111, 116, 104, 101, 114], 1)], [], [], 0, 0⟩
        (ProtoMsg.serialize
          (ProtoMsg.frameMsg ⟨[111, 116, 104, 101, 114], [3]⟩))).2.deliveredRaw
      = some (hashed [111, 116, 104, 101, 114]) ∧
    (processFrame
        ⟨[(hashed [111, 116, 104, 101, 114], 1)], [],
          [(hashed [111, 116, 104, 101, 114], 1)], [], [], 0, 0⟩
        (ProtoMsg.serialize
          (ProtoMsg.frameMsg ⟨[111, 116, 104, 101, 114], [3]⟩))).1
      = ⟨[(hashed [111, 116, 104, 101, 114], 1)], [],
          [(hashed [111, 116, 104, 101, 114], 1)], [], [], 0, 0⟩ := by
  decide

/-- C6 (amended): `FrameRouter::run` routes every well-formed `FrameMessage`
by the hash of the message's own `id` field — delivering it to that channel's
raw broadcast entry exactly when the snapshot has one — independently of any
session connect name; it increments no counter (the session also is not
disconnected: the router keeps processing subsequent frames). -/
theorem frame_routed_by_own_id (s : RouterState) (m : FrameMsg)
    (h1 : m.id.length < 2 ^ 64) (h2 : m.data.length < 2 ^ 64) :
    (processFrame s (ProtoMsg.serialize (ProtoMsg.frameMsg m))).2.deliveredRaw
      = (if (lookupA s.framesSnap (hashed m.id)).isSome
          then some (hashed m.id) else none) ∧
    (processFrame s (ProtoMsg.serialize (ProtoMsg.frameMsg m))).1.meterRaw
      = s.meterRaw ∧
    (processFrame s (ProtoMsg.serialize (ProtoMsg.frameMsg m))).1.meterInfered
      = s.meterInfered := by
  have hdes := deserialize_serialize_frame m h1 h2
  refine ⟨?_, (processFrame_fields s _).2.2.2.2.1,
    (processFrame_fields s _).2.2.2.2.2⟩
  cases hfr : lookupA s.framesSnap (hashed m.id) with
  | some v =>
    cases hlk : lookupA s.inferedSnap (hashed m.id) with
    | none => simp [processFrame, hdes, hfr, hlk]
    | some w =>
      by_cases hq : s.inferQueue.length < inferQueueCapacity <;>
        simp [processFrame, hdes, hfr, hlk, hq]
  | none =>
    cases hlk : lookupA s.inferedSnap (hashed m.id) with
    | none => simp [processFrame, hdes, hfr, hlk]
    | some w =>
      by_cases hq : s.inferQueue.length < inferQueueCapacity <;>
        simp [processFrame, hdes, hfr, hlk, hq]

/-- Witness for C6: a frame with id `[5]` on a router whose raw snapshot has
a subscriber for `hashed [5]` is delivered to that channel. -/
theorem frame_routed_by_own_id_witness :
    ((([5] : ByteStr).length < 2 ^ 64 ∧ ([6] : ByteStr).length < 2 ^ 64) ∧
      (processFrame ⟨[(hashed [5], 1)], [], [(hashed [5], 1)], [], [], 3, 4⟩
          (ProtoMsg.serialize (ProtoMsg.frameMsg ⟨[5], [6]⟩))).2.deliveredRaw
        = (if (lookupA
              (⟨[(hashed [5], 1)], [], [(hashed [5], 1)], [], [], 3, 4⟩ :
                RouterState).framesSnap (hashed [5])).isSome
            then some (hashed [5]) else none) ∧
      (processFrame ⟨[(hashed [5], 1)], [], [(hashed [5], 1)], [], [], 3, 4⟩
          (ProtoMsg.serialize (ProtoMsg.frameMsg ⟨[5], [6]⟩))).1.meterRaw = 3 ∧
      (processFrame ⟨[(hashed [5], 1)], [], [(hashed [5], 1)], [], [], 3, 4⟩
          (ProtoMsg.serialize (ProtoMsg.frameMsg ⟨[5], [6]⟩))).1.meterInfered
        = 4) :=
  ⟨⟨by decide, by decide⟩,
   frame_routed_by_own_id
     ⟨[(hashed [5], 1)], [], [(hashed [5], 1)], [], [], 3, 4⟩
     ⟨[5], [6]⟩ (by decide) (by decide)⟩

/-- Counterexample for C7 as stated: the unit box has nonzero area, yet its
IoU with itself is not `1` — the `EPS` term in the denominator makes it
`1 / (1 + 1e-7)`, i.e. `10^7 / (10^7 + 1)` (also in `f32`, where the sum
`1 + 1e-7` rounds up, the quotient is below `1`). -/
theorem iou_self_not_one_cex :
    bbox_area ⟨0, 0, 1, 1⟩ ≠ 0 ∧
    iou ⟨0, 0, 1, 1⟩ ⟨0, 0, 1, 1⟩ ≠ 1 := by
  constructor
  · norm_num [bbox_area]
  · rw [iou_self]
    norm_num [bbox_area, EPS]

/-- C7 (amended): `iou` is symmetric, and `iou(a,a)` is `0` exactly when `a`
has zero area; for a nonzero-area box, `iou(a,a)` is not in general exactly
`1` (the counterexample above exhibits the unit box, where it is
`10^7 / (10^7 + 1)`). -/
theorem iou_symm_and_self_behaviour (a b : Bbox) :
    iou a b = iou b a ∧
    (iou a a = 0 ↔ bbox_area a = 0) :=
  ⟨iou_comm a b, iou_self_eq_zero_iff a⟩

/-- C8: non-maximum suppression is idempotent as a set transformation: the
output of `non_maximum_suppression` is pairwise compatible (every pair of
accepted boxes has IoU ≤ `max_iou`), so feeding it back in with the same
`max_iou` accepts everything and yields the same set of pairs. -/
theorem nms_idempotent_set (max_iou : ℚ) (l : List (Bbox × ℚ))
    (x : Bbox × ℚ) :
    x ∈ non_maximum_suppression (non_maximum_suppression l max_iou) max_iou
      ↔ x ∈ non_maximum_suppression l max_iou := by
  rw [nms_of_pairwise _ _ (nms_pairwise l max_iou), List.mem_reverse]

/-- C9: every pair surviving the confidence filter of
`UltrafaceModel::postproc` has a non-NaN confidence (NaN satisfies no `>`
comparison), so `partial_cmp` on any two surviving confidences is `Some` and
the `.unwrap()` in the sort comparator cannot panic. -/
theorem postproc_filter_excludes_nan (min_confidence : F32)
    (pairs : List (Bbox × F32)) (p q : Bbox × F32)
    (hp : p ∈ filterByConf min_confidence pairs)
    (hq : q ∈ filterByConf min_confidence pairs) :
    p.2 ≠ F32.nan ∧ (F32.partialCmp p.2 q.2).isSome = true := by
  obtain ⟨a, ha⟩ := gtF_left_val p.2 min_confidence
      (mem_filterByConf_gt min_confidence pairs p hp)
  obtain ⟨b, hb⟩ := gtF_left_val q.2 min_confidence
      (mem_filterByConf_gt min_confidence pairs q hq)
  constructor
  · rw [ha]
    intro hcon
    cases hcon
  · rw [ha, hb]
    rfl

/-- Witness for C9: a candidate list containing a NaN confidence; the filter
at threshold `0.5`-like value `0` removes it, and the surviving pair compares
with itself via `partial_cmp` successfully. -/
theorem postproc_filter_excludes_nan_witness :
    ((⟨0, 0, 1, 1⟩, F32.val 1) ∈
        filterByConf (F32.val 0)
          [(⟨0, 0, 1, 1⟩, F32.nan), (⟨0, 0, 1, 1⟩, F32.val 1)] ∧
      filterByConf (F32.val 0)
          [(⟨0, 0, 1, 1⟩, F32.nan), (⟨0, 0, 1, 1⟩, F32.val 1)]
        = [(⟨0, 0, 1, 1⟩, F32.val 1)]) ∧
    (((⟨0, 0, 1, 1⟩, F32.val 1) : Bbox × F32).2 ≠ F32.nan ∧
      (F32.partialCmp ((⟨0, 0, 1, 1⟩, F32.val 1) : Bbox × F32).2
        ((⟨0, 0, 1, 1⟩, F32.val 1) : Bbox × F32).2).isSome = true) :=
  ⟨⟨by decide, by decide⟩,
   postproc_filter_excludes_nan (F32.val 0)
     [(⟨0, 0, 1, 1⟩, F32.nan), (⟨0, 0, 1, 1⟩, F32.val 1)]
     (⟨0, 0, 1, 1⟩, F32.val 1) (⟨0, 0, 1, 1⟩, F32.val 1)
     (by decide) (by decide)⟩

/-- C10: the per-channel inference stream is single-consumer.  Along any
history of `get_mpsc_sender` / `get_mpsc_receiver` / `return_mpsc_receiver`
calls on an initially empty `NamedPubSub`, at most one receiver per name is
outstanding; immediately after `get_mpsc_receiver` hands out a receiver a
further call returns `None`; and after `return_mpsc_receiver` gives it back,
`get_mpsc_receiver` succeeds again. -/
theorem mpsc_receiver_single_consumer :
    (∀ (ops : List PubSubOp) (n : ByteStr), (runPubSub ops).2 n ≤ 1) ∧
    (∀ (m : MpscMap) (n : ByteStr),
        ((get_mpsc_receiver m n).1).isSome = true →
        (get_mpsc_receiver (get_mpsc_receiver m n).2 n).1 = none) ∧
    (∀ (m : MpscMap) (n : ByteStr),
        ((get_mpsc_receiver
          (return_mpsc_receiver (get_mpsc_receiver m n).2 n) n).1).isSome
          = true) := by
  refine ⟨fun ops n => (runPubSub_inv ops n).1, ?_, ?_⟩
  · intro m n _
    exact get_mpsc_receiver_none_of_false _ n (lookupS_after_get m n)
  · intro m n
    have h2 : lookupS (return_mpsc_receiver (get_mpsc_receiver m n).2 n) n
        = some true :=
      lookupS_return_some_false _ n (lookupS_after_get m n)
    rw [get_mpsc_receiver_some_of_true _ n h2]
    rfl

/-- Witness for C10: on the empty map, getting the receiver for name `[99]`
succeeds, and the second conjunct of the theorem shows the immediate second
call returns `None`. -/
theorem mpsc_receiver_single_consumer_witness :
    ((get_mpsc_receiver [] [99]).1).isSome = true ∧
    (get_mpsc_receiver (get_mpsc_receiver [] [99]).2 [99]).1 = none :=
  ⟨by decide, mpsc_receiver_single_consumer.2.1 [] [99] (by decide)⟩
